import Mathlib

/-!
# Verification of the Toto F1 odds-ingestion engine (`toto_f1_api.py`)

A shallow embedding of the pure text pipeline (whitespace normalisation,
canonical keys, the Dutch decimal-odds matcher/parser, the section and
market-block extractors) and of the sqlite-backed store (`class DB`), with
theorems settling the frozen specification claims.

Conventions of the embedding:
* Python `str` is `String` / `List Char`; Python floats are modelled as `ℚ`
  (all odds arithmetic in the source is exact at the magnitudes involved).
* sqlite tables are Lean lists of record rows kept in insertion (rowid)
  order, together with the next AUTOINCREMENT id.
* Python truthiness is translated explicitly where the source relies on it
  (`if event_id`, `if title and items`, ...).
-/

namespace Leo

/-! ## Character helpers -/

/-- ASCII decimal digit (regex `\d` restricted to ASCII, which is the only
range the scraped page produces). -/
def isDigit (c : Char) : Bool := decide ('0' ≤ c) && decide (c ≤ '9')

/-- Python `\s` / `str.strip` whitespace, over the Latin-1 range that can
occur in the pipeline (`\t \n \v \f \r`, space, `\x1c`-`\x1f`, `\x85`, NBSP). -/
def isPySpace (c : Char) : Bool :=
  c == ' ' || c == '\t' || c == '\n' || c == '\x0d' || c == '\x0b' || c == '\x0c' ||
  c == '\x1c' || c == '\x1d' || c == '\x1e' || c == '\x1f' || c == '\x85' || c == '\xa0'

/-- Characters collapsed by `WS_RE = re.compile(r"[ \t\xa0]+")`. -/
def isWsCollapse (c : Char) : Bool := c == ' ' || c == '\t' || c == '\xa0'

/-- Python `str.lower` on the ASCII and Latin-1 ranges (the accented letters
named in `canonical_key`'s transliteration table all live in Latin-1;
`À`..`Þ` except `×` map down by 32, as in Unicode). -/
def pyLower (c : Char) : Char :=
  if 'A' ≤ c ∧ c ≤ 'Z' then Char.ofNat (c.toNat + 32)
  else if 0xC0 ≤ c.toNat ∧ c.toNat ≤ 0xDE ∧ c.toNat ≠ 0xD7 then Char.ofNat (c.toNat + 32)
  else c

/-- Characters kept by `re.sub(r"[^a-z0-9 ]+", "", k)` in `canonical_key`. -/
def isKeyChar (c : Char) : Bool :=
  (decide ('a' ≤ c) && decide (c ≤ 'z')) || isDigit c || c == ' '

/-! ## List-of-characters string helpers -/

/-- `p` occurs at the front of `s` (Python `str.startswith`). -/
def beginsWith (s p : List Char) : Bool := s.take p.length == p

/-- Python substring containment `pat in hay`. -/
def strContainsL (hay pat : List Char) : Bool :=
  (List.range (hay.length + 1)).any (fun i => beginsWith (hay.drop i) pat)

/-- Python `pat in hay` on `String`s. -/
def strContains (hay pat : String) : Bool := strContainsL hay.data pat.data

/-- `str.lower` over a whole string. -/
def pyLowerStr (s : String) : String := ⟨s.data.map pyLower⟩

/-- Drop `p`-characters from the tail of a list. -/
def dropTrailing (p : Char → Bool) (cs : List Char) : List Char :=
  (cs.reverse.dropWhile p).reverse

/-- Python `str.strip()`: remove leading and trailing Unicode whitespace. -/
def pyStrip (s : String) : String :=
  ⟨dropTrailing isPySpace (s.data.dropWhile isPySpace)⟩

/-- Replace each maximal run of `WS_RE` characters by a single space
(`WS_RE.sub(" ", ·)`). -/
def collapseWs : List Char → List Char
  | [] => []
  | [c] => if isWsCollapse c then [' '] else [c]
  | a :: b :: rest =>
    if isWsCollapse a then
      (if isWsCollapse b then collapseWs (b :: rest) else ' ' :: collapseWs (b :: rest))
    else a :: collapseWs (b :: rest)

/-- Same collapsing for Python `\s` runs (`re.sub(r"\s+", " ", ·)`). -/
def collapsePySpace : List Char → List Char
  | [] => []
  | [c] => if isPySpace c then [' '] else [c]
  | a :: b :: rest =>
    if isPySpace a then
      (if isPySpace b then collapsePySpace (b :: rest) else ' ' :: collapsePySpace (b :: rest))
    else a :: collapsePySpace (b :: rest)

/-- `wsnorm(s) = WS_RE.sub(" ", s.strip())`. -/
def wsnorm (s : String) : String := ⟨collapseWs (pyStrip s).data⟩

/-! ## Odds parsing (`ODDS_DUTCH_RE`, `parse_dutch_decimal`, `implied_probability`) -/

/-- Matcher for the tail of `ODDS_DUTCH_RE` after the leading digit group:
`(?:\.\d{3})*,\d{2}$`. -/
def oddsTail : List Char → Bool
  | '.' :: a :: b :: c :: rest => isDigit a && isDigit b && isDigit c && oddsTail rest
  | ',' :: a :: b :: [] => isDigit a && isDigit b
  | _ => false

/-- Decision procedure for `ODDS_DUTCH_RE = ^\d{1,3}(?:\.\d{3})*,\d{2}$`
(full match, as used through `.match` on newline-free extracted lines). -/
def oddsDutchMatch (s : String) : Bool :=
  decide (1 ≤ (s.data.takeWhile isDigit).length) &&
  decide ((s.data.takeWhile isDigit).length ≤ 3) &&
  oddsTail (s.data.dropWhile isDigit)

/-- Numeric value of a digit character. -/
def digitVal (c : Char) : Nat := c.toNat - '0'.toNat

/-- Base-10 value of a digit string. -/
def digitsVal (cs : List Char) : Nat := cs.foldl (fun a c => 10 * a + digitVal c) 0

/-- The two chained replaces of `parse_dutch_decimal`:
`s.replace(".", "").replace(",", ".")`. -/
def mangleOdds (cs : List Char) : List Char :=
  (cs.filter (fun c => !(c == '.'))).map (fun c => if c == ',' then '.' else c)

/-- Python `float()` on the plain decimal-literal fragment `digits[.digits]`
(the only shape reachable through the `ODDS_DUTCH_RE` guard); every other
string is a parse failure (`ValueError`), returned as `none`. -/
def pyFloatDec (cs : List Char) : Option ℚ :=
  match cs.dropWhile isDigit with
  | [] => if (cs.takeWhile isDigit).isEmpty then none else some (digitsVal (cs.takeWhile isDigit))
  | '.' :: fp =>
    if fp.all isDigit && !((cs.takeWhile isDigit).isEmpty && fp.isEmpty) then
      some ((digitsVal (cs.takeWhile isDigit) : ℚ) + (digitsVal fp : ℚ) / ((10 : ℚ) ^ fp.length))
    else none
  | _ => none

/-- `parse_dutch_decimal(s) = float(s.replace(".", "").replace(",", "."))`,
with `ValueError` as `none`. -/
def parse_dutch_decimal (s : String) : Option ℚ := pyFloatDec (mangleOdds s.data)

/-- The spec's `parseLocalizedOdds`: every call site guards
`parse_dutch_decimal` behind `ODDS_DUTCH_RE`, so a non-matching token is a
signalled failure (`none`), never a coerced number. -/
def parseLocalizedOdds (s : String) : Option ℚ :=
  if oddsDutchMatch s then parse_dutch_decimal s else none

/-- `implied_probability(d) = 0 if not d else 1.0/d`. -/
def implied_probability (d : ℚ) : ℚ := if d = 0 then 0 else 1 / d

/-! ## `canonical_key` -/

/-- The transliteration table of `canonical_key` as a character map: each
`k.replace(ch, tgt)` pass rewrites single characters. -/
def translitChar (c : Char) : Char :=
  if c == 'á' || c == 'à' || c == 'ä' || c == 'â' then 'a'
  else if c == 'é' || c == 'è' || c == 'ë' || c == 'ê' then 'e'
  else if c == 'í' || c == 'ì' || c == 'ï' || c == 'î' then 'i'
  else if c == 'ó' || c == 'ò' || c == 'ö' || c == 'ô' then 'o'
  else if c == 'ú' || c == 'ù' || c == 'ü' || c == 'û' then 'u'
  else if c == 'ñ' then 'n'
  else if c == 'ç' then 'c'
  else c

/-- `canonical_key` exactly as in the source: whitespace-normalise and
lower-case, strip everything outside `[a-z0-9 ]`, collapse whitespace and
strip again, and only then run the transliteration loop. -/
def canonical_key (name : String) : String :=
  let k := (wsnorm name).data.map pyLower
  let k := k.filter isKeyChar
  let k := dropTrailing isPySpace ((collapsePySpace k).dropWhile isPySpace)
  ⟨k.map translitChar⟩

/-! ## `looks_like_market_title` -/

/-- Character class `[\d\.\, ]` of the numeric-range blocker. -/
def isRangeChar (c : Char) : Bool := isDigit c || c == '.' || c == ',' || c == ' '

/-- `[\d\.\, ]+\s*` matched against a whole prefix: a non-empty run of range
characters followed only by whitespace.  (The greedy run is exhaustive here
because every backtracking split leaves a range character where `\s` is
required or vice versa only when this test already succeeds.) -/
def rangeLeft (x : List Char) : Bool :=
  !(x.takeWhile isRangeChar).isEmpty && (x.dropWhile isRangeChar).all isPySpace

/-- `\s*[\d\.\, ]+.*` matched against a whole suffix: some split point `j`
with whitespace before it, a range character at it, and (since `.` cannot
match a newline) no newline after the one-character range core. -/
def rangeRight (y : List Char) : Bool :=
  (List.range y.length).any (fun j =>
    (y.take j).all isPySpace &&
    (match y.drop j with
     | c :: rest => isRangeChar c && !(rest.contains '\n')
     | [] => false))

/-- `re.fullmatch(r"[\d\.\, ]+\s*-\s*[\d\.\, ]+.*", k)`: some `-` splits the
string into a `rangeLeft` part and a `rangeRight` part. -/
def numericRangeMatch (s : List Char) : Bool :=
  (List.range s.length).any (fun i =>
    (match s.drop i with
     | '-' :: _ => true
     | _ => false) && rangeLeft (s.take i) && rangeRight (s.drop (i + 1)))

/-- The `strong` marker substrings of `looks_like_market_title`. -/
def strongMarkers : List String :=
  ["winnaar", "winning", "top ", "constructor",
   "kwalificatie", "qualification", "race", "sprint",
   "championship", "marge", "margin", "nationality",
   "classified", "first ", "any driver", "number of", "auto "]

/-- `looks_like_market_title` exactly as in the source. -/
def looks_like_market_title (line : String) : Bool :=
  let l := wsnorm line
  if 120 < l.length then false
  else
    let k := pyLowerStr l
    if numericRangeMatch k.data then false
    else strongMarkers.any (fun w => strContains k w)

/-! ## Section extraction (`_extract_sections`) -/

/-- The literal alternatives of the section keyword regex. -/
def sectionLiterals : List String :=
  ["grand prix", "formula", "formule", "qualification", "kwalificatie", "sprint", "race"]

/-- `20\d{2}` anchored at the head of a character list. -/
def yearAt : List Char → Bool
  | '2' :: '0' :: a :: b :: _ => isDigit a && isDigit b
  | _ => false

/-- `re.search(r"(grand prix|formula|formule|qualification|kwalificatie|sprint|race|20\d{2})", low)`. -/
def sectionKeywordSearch (low : String) : Bool :=
  sectionLiterals.any (fun w => strContains low w) ||
  (List.range low.data.length).any (fun i => yearAt (low.data.drop i))

/-- The scan loop of `_extract_sections`, carrying the `tabs` accumulator and
the `capture` flag; returning `tabs` models the `break` statements. -/
def extract_sections_aux : List String → List String → Bool → List String
  | [], tabs, _ => tabs
  | s :: rest, tabs, capture =>
    let sl := pyStrip s
    if pyLowerStr sl == "alles" then extract_sections_aux rest tabs true
    else if !capture then extract_sections_aux rest tabs capture
    else if strContains sl " - " then
      (if 3 ≤ tabs.length then tabs else extract_sections_aux rest tabs capture)
    else if sectionKeywordSearch (pyLowerStr sl) then
      extract_sections_aux rest (if tabs.contains sl then tabs else tabs ++ [sl]) capture
    else if 3 ≤ tabs.length then tabs
    else extract_sections_aux rest tabs capture

/-- `_extract_sections(lines)`. -/
def extract_sections (lines : List String) : List String :=
  extract_sections_aux lines [] false

/-! ## Market-block extraction (`_extract_market_blocks`) -/

/-- A `(selection, odds)` pair as scanned from adjacent lines. -/
abbrev Entry := String × String

/-- A `(marketTitle, entries)` block. -/
abbrev Block := String × List Entry

/-- Python truthiness of a string: non-empty. -/
def pyTruthyStr (s : String) : Bool := !(s == "")

/-- The in-block de-duplication of `flush()`: keep the first occurrence of
each exact `(selection, odds)` pair, in order. -/
def dedupFirst (items : List Entry) : List Entry :=
  items.foldl (fun acc p => if acc.contains p then acc else acc ++ [p]) []

/-- `flush()`: emit the open block if it has a (truthy) title and at least
one entry, de-duplicated. -/
def flushBlock (title : Option String) (items : List Entry) (blocks : List Block) : List Block :=
  match title with
  | some t => if pyTruthyStr t && !items.isEmpty then blocks ++ [(t, dedupFirst items)] else blocks
  | none => blocks

/-- The scan loop of `_extract_market_blocks`: `title`/`items` are the open
block, `blocks` the emitted ones; the two-line advance consumes the odds
token together with its selection line. -/
def extract_blocks_aux : List String → Option String → List Entry → List Block → List Block
  | [], title, items, blocks => flushBlock title items blocks
  | ln0 :: rest, title, items, blocks =>
    let ln := wsnorm ln0
    match title with
    | none =>
      if looks_like_market_title ln then extract_blocks_aux rest (some ln) items blocks
      else extract_blocks_aux rest none items blocks
    | some t =>
      if beginsWith (pyLowerStr ln).data "bekijk meer".data then
        extract_blocks_aux rest (some t) items blocks
      else if looks_like_market_title ln then
        extract_blocks_aux rest (some ln) [] (flushBlock (some t) items blocks)
      else
        match rest with
        | nxt :: rest2 =>
          if oddsDutchMatch nxt then
            extract_blocks_aux rest2 (some t) (items ++ [(ln, nxt)]) blocks
          else extract_blocks_aux (nxt :: rest2) (some t) items blocks
        | [] => flushBlock (some t) items blocks

/-- `_extract_market_blocks(lines)`. -/
def extract_market_blocks (lines : List String) : List Block :=
  extract_blocks_aux lines none [] []

/-! ## `_match_section_for_market` and `guess_entity_type` -/

/-- Market-side keywords of the first association rule. -/
def mtKeywords : List String := ["race", "kwalificatie", "qualifying", "sprint", "shootout"]

/-- Section-side keywords of the first association rule. -/
def secKeywords : List String := ["race", "qualification", "kwalificatie", "sprint"]

/-- `(formula|formule)\s*1\s*20\d{2}` anchored at the head, for one literal. -/
def f1SeasonAtLit (lit cs : List Char) : Bool :=
  beginsWith cs lit &&
  (match (cs.drop lit.length).dropWhile isPySpace with
   | '1' :: rest =>
     (match rest.dropWhile isPySpace with
      | '2' :: '0' :: a :: b :: _ => isDigit a && isDigit b
      | _ => false)
   | _ => false)

/-- `re.search(r"(formula|formule)\s*1\s*20\d{2}", low)`. -/
def f1SeasonSearch (low : String) : Bool :=
  (List.range (low.data.length + 1)).any (fun i =>
    f1SeasonAtLit "formula".data (low.data.drop i) ||
    f1SeasonAtLit "formule".data (low.data.drop i))

/-- `_match_section_for_market(market_title, sections)`: first the
race/qualifying rule, then the season fallback. -/
def match_section_for_market (market_title : String) (sections : List String) : Option String :=
  let mt := pyLowerStr market_title
  match sections.find? (fun s =>
      mtKeywords.any (fun k => strContains mt k) &&
      secKeywords.any (fun k => strContains (pyLowerStr s) k)) with
  | some s => some s
  | none => sections.find? (fun s => f1SeasonSearch (pyLowerStr s))

/-- The team-name substrings of `guess_entity_type`. -/
def teamWords : List String :=
  ["racing", "amg", "team", "williams", "mclaren", "red bull", "ferrari",
   "mercedes", "aston martin", "sauber", "alpine", "rb"]

/-- `guess_entity_type(n)`. -/
def guess_entity_type (n : String) : Option String :=
  if strContains n "," then some "driver"
  else if teamWords.any (fun k => strContains (pyLowerStr n) k) then some "team"
  else none

/-! ## The store (`class DB`)

Each sqlite table is a list of rows in rowid order plus the next
AUTOINCREMENT id (sqlite numbers from 1).  `fetched_at` timestamps and the
SHA-256 content hash of snapshots are real-time/crypto values outside the
shallow embedding and are not carried; no claim mentions them. -/

/-- A `snapshots` row (audit fields elided, see section comment). -/
structure SnapshotR where
  id : Nat
  url : String
  html : String
deriving DecidableEq, Repr

/-- A `sections` row. -/
structure SectionR where
  id : Nat
  title : String
deriving DecidableEq, Repr

/-- An `events` row. -/
structure EventR where
  id : Nat
  section_id : Option Nat
  name : String
deriving DecidableEq, Repr

/-- A `markets` row. -/
structure MarketR where
  id : Nat
  event_id : Option Nat
  name : String
  last_seen_snapshot_id : Nat
deriving DecidableEq, Repr

/-- An `outcomes` row. -/
structure OutcomeR where
  id : Nat
  market_id : Nat
  selection_name : String
  odds_decimal : ℚ
  implied_prob : ℚ
  snapshot_id : Nat
deriving DecidableEq, Repr

/-- An `entities` row. -/
structure EntityR where
  id : Nat
  type : Option String
  canonical_name : String
  canonical_key : String
deriving DecidableEq, Repr

/-- An `entity_aliases` row. -/
structure AliasR where
  id : Nat
  entity_id : Nat
  alias_text : String  -- column `alias` (a reserved word in Lean)
  alias_key : String
  first_seen_snapshot_id : Nat
  last_seen_snapshot_id : Nat
deriving DecidableEq, Repr

/-- An `outcome_entities` row (primary key `outcome_id`). -/
structure LinkR where
  outcome_id : Nat
  entity_id : Nat
deriving DecidableEq, Repr

/-- The whole database state. -/
structure DBState where
  snapshots : List SnapshotR
  sections : List SectionR
  events : List EventR
  markets : List MarketR
  outcomes : List OutcomeR
  entities : List EntityR
  entity_aliases : List AliasR
  outcome_entities : List LinkR
  next_snapshot_id : Nat
  next_section_id : Nat
  next_event_id : Nat
  next_market_id : Nat
  next_outcome_id : Nat
  next_entity_id : Nat
  next_alias_id : Nat
deriving DecidableEq, Repr

/-- A freshly created database (the schema script creates empty tables). -/
def DBState.empty : DBState :=
  ⟨[], [], [], [], [], [], [], [], 1, 1, 1, 1, 1, 1, 1⟩

/-- Python truthiness of a nullable integer column value
(`None` and `0` are falsy). -/
def pyTruthyOpt : Option Nat → Bool
  | none => false
  | some n => !(n == 0)

/-- `DB.new_snapshot`: INSERT a snapshot row, return its id. -/
def new_snapshot (url html : String) (db : DBState) : Nat × DBState :=
  (db.next_snapshot_id,
   { db with snapshots := db.snapshots ++ [⟨db.next_snapshot_id, url, html⟩],
             next_snapshot_id := db.next_snapshot_id + 1 })

/-- `INSERT OR IGNORE INTO sections (title) VALUES (?)`. -/
def sqlInsertOrIgnoreSection (title : String) (db : DBState) : DBState :=
  if db.sections.any (fun r => r.title == title) then db
  else { db with sections := db.sections ++ [⟨db.next_section_id, title⟩],
                 next_section_id := db.next_section_id + 1 }

/-- `DB.upsert_section`: INSERT OR IGNORE on the unique title, then SELECT
the row's id. -/
def upsert_section (title : String) (db : DBState) : Nat × DBState :=
  let db1 := sqlInsertOrIgnoreSection title db
  match db1.sections.find? (fun r => r.title == title) with
  | some r => (r.id, db1)
  | none => (0, db1)  -- unreachable: the row was just ensured

/-- `INSERT OR IGNORE INTO events (name,section_id) VALUES (?,?)`. -/
def sqlInsertOrIgnoreEvent (name : String) (section_id : Option Nat) (db : DBState) : DBState :=
  if db.events.any (fun r => r.name == name) then db
  else { db with events := db.events ++ [⟨db.next_event_id, section_id, name⟩],
                 next_event_id := db.next_event_id + 1 }

/-- `UPDATE events SET ... WHERE id=?` with the row change `f`. -/
def sqlUpdateEvent (i : Nat) (f : EventR → EventR) (db : DBState) : DBState :=
  { db with events := db.events.map (fun r => if r.id == i then f r else r) }

/-- `DB.upsert_event`: INSERT OR IGNORE on the unique name, then move the
section link when a truthy, different `section_id` is supplied. -/
def upsert_event (name : String) (section_id : Option Nat) (db : DBState) : Nat × DBState :=
  let db1 := sqlInsertOrIgnoreEvent name section_id db
  match db1.events.find? (fun r => r.name == name) with
  | some row =>
    if pyTruthyOpt section_id && !(row.section_id == section_id) then
      (row.id, sqlUpdateEvent row.id (fun r => { r with section_id := section_id }) db1)
    else (row.id, db1)
  | none => (0, db1)  -- unreachable

/-- `INSERT OR IGNORE INTO markets (name,event_id,last_seen_snapshot_id) VALUES (?,?,?)`. -/
def sqlInsertOrIgnoreMarket (name : String) (event_id : Option Nat) (snapshot_id : Nat)
    (db : DBState) : DBState :=
  if db.markets.any (fun r => r.name == name) then db
  else { db with markets := db.markets ++ [⟨db.next_market_id, event_id, name, snapshot_id⟩],
                 next_market_id := db.next_market_id + 1 }

/-- `UPDATE markets SET ... WHERE id=?` with the row change `f`. -/
def sqlUpdateMarket (i : Nat) (f : MarketR → MarketR) (db : DBState) : DBState :=
  { db with markets := db.markets.map (fun r => if r.id == i then f r else r) }

/-- `DB.upsert_market`: INSERT OR IGNORE on the unique name, always stamp
`last_seen_snapshot_id`, and move the event link when a truthy, different
`event_id` is supplied. -/
def upsert_market (name : String) (event_id : Option Nat) (snapshot_id : Nat)
    (db : DBState) : Nat × DBState :=
  let db1 := sqlInsertOrIgnoreMarket name event_id snapshot_id db
  match db1.markets.find? (fun r => r.name == name) with
  | some row =>
    let db2 := sqlUpdateMarket row.id
      (fun r => { r with last_seen_snapshot_id := snapshot_id }) db1
    if pyTruthyOpt event_id && !(row.event_id == event_id) then
      (row.id, sqlUpdateMarket row.id (fun r => { r with event_id := event_id }) db2)
    else (row.id, db2)
  | none => (0, db1)  -- unreachable

/-- `DB.insert_outcome`: append a new outcome row whose implied probability
is always derived through `implied_probability`. -/
def insert_outcome (market_id : Nat) (selection_name : String) (odds_decimal : ℚ)
    (snapshot_id : Nat) (db : DBState) : Nat × DBState :=
  (db.next_outcome_id,
   { db with
       outcomes := db.outcomes ++
         [⟨db.next_outcome_id, market_id, selection_name, odds_decimal,
           implied_probability odds_decimal, snapshot_id⟩],
       next_outcome_id := db.next_outcome_id + 1 })

/-- `DB._upsert_alias`: bump `last_seen_snapshot_id` of the row with this
`(entity_id, alias_key)`, or insert a fresh alias row. -/
def upsert_alias (entity_id : Nat) (alias_text : String) (snapshot_id : Nat)
    (db : DBState) : DBState :=
  let ak := canonical_key alias_text
  match db.entity_aliases.find? (fun a => a.entity_id == entity_id && a.alias_key == ak) with
  | some row =>
    { db with entity_aliases := db.entity_aliases.map (fun a =>
        if a.id == row.id then { a with last_seen_snapshot_id := snapshot_id } else a) }
  | none =>
    { db with
        entity_aliases := db.entity_aliases ++
          [⟨db.next_alias_id, entity_id, alias_text, ak, snapshot_id, snapshot_id⟩],
        next_alias_id := db.next_alias_id + 1 }

/-- `DB.upsert_entity_with_alias`: resolve by canonical key, creating the
entity on a miss, then upsert the alias spelt exactly as `name`. -/
def upsert_entity_with_alias (name : String) (snapshot_id : Nat) (typ : Option String)
    (db : DBState) : Nat × DBState :=
  let key := canonical_key name
  match db.entities.find? (fun e => e.canonical_key == key) with
  | some e => (e.id, upsert_alias e.id name snapshot_id db)
  | none =>
    let eid := db.next_entity_id
    let db1 := { db with entities := db.entities ++ [⟨eid, typ, name, key⟩],
                         next_entity_id := db.next_entity_id + 1 }
    (eid, upsert_alias eid name snapshot_id db1)

/-- `DB.link_outcome_entity`: INSERT OR IGNORE on the `outcome_id` primary
key. -/
def link_outcome_entity (outcome_id entity_id : Nat) (db : DBState) : DBState :=
  if db.outcome_entities.any (fun l => l.outcome_id == outcome_id) then db
  else { db with outcome_entities := db.outcome_entities ++ [⟨outcome_id, entity_id⟩] }

/-- The `Outcome` dataclass produced by the outcome queries (`entity_id`
filled by the LEFT JOIN against `outcome_entities`). -/
structure OutcomeJ where
  id : Nat
  market_id : Nat
  selection_name : String
  odds_decimal : ℚ
  implied_prob : ℚ
  entity_id : Option Nat
deriving DecidableEq, Repr

/-- The LEFT JOIN of one outcome row against `outcome_entities`. -/
def joinEntity (db : DBState) (o : OutcomeR) : OutcomeJ :=
  ⟨o.id, o.market_id, o.selection_name, o.odds_decimal, o.implied_prob,
   (db.outcome_entities.find? (fun l => l.outcome_id == o.id)).map (fun l => l.entity_id)⟩

/-- The snapshot ids of a market's outcome rows, in rowid order. -/
def snapsOfMarket (db : DBState) (market_id : Nat) : List Nat :=
  (db.outcomes.filter (fun o => o.market_id == market_id)).map (fun o => o.snapshot_id)

/-- `SELECT MAX(snapshot_id) FROM outcomes WHERE market_id=?` (`NULL` when
the market has no outcomes). -/
def maxSnapForMarket (db : DBState) (market_id : Nat) : Option Nat :=
  if (snapsOfMarket db market_id).isEmpty then none
  else some ((snapsOfMarket db market_id).foldl Nat.max 0)

/-- `DB.list_outcomes_latest`: the rows of the per-market maximal snapshot,
in rowid (insertion) order, LEFT JOINed against `outcome_entities`. -/
def list_outcomes_latest (db : DBState) (market_id : Nat) : List OutcomeJ :=
  match maxSnapForMarket db market_id with
  | none => []
  | some s =>
    (db.outcomes.filter (fun o => o.market_id == market_id && o.snapshot_id == s)).map
      (joinEntity db)

/-- `DB.entity_aliases`: `(alias, first_seen, last_seen)` per alias row of
the entity. -/
def entity_aliases (db : DBState) (entity_id : Nat) : List (String × Nat × Nat) :=
  (db.entity_aliases.filter (fun a => a.entity_id == entity_id)).map
    (fun a => (a.alias_text, a.first_seen_snapshot_id, a.last_seen_snapshot_id))

/-! ## The ingestion pipeline (`TotoF1Client.refresh` after the fetch)

`refresh` fetches HTML, stores a snapshot, extracts text lines and then
ingests them; the fetch/HTML-to-lines stages are external collaborators.
`ingest_lines` is the ingestion body of `refresh` from the extracted line
sequence on, under an already-created snapshot id. -/

/-- Dictionary lookup in `sec_ids` (`dict.get`; section titles are unique in
`sections`, so first match is the binding). -/
def lookupSecId (sec_ids : List (String × Nat)) (s : String) : Option Nat :=
  (sec_ids.find? (fun p => p.1 == s)).map (fun p => p.2)

/-- The per-entry body of the inner `for sel, odd in items` loop. -/
def ingest_entry (m_id : Nat) (snap : Nat) (db : DBState) (p : Entry) : DBState :=
  if oddsDutchMatch p.2 then
    let odds := (parse_dutch_decimal p.2).getD 0  -- the guard makes the parse total
    let (outcome_id, db) := insert_outcome m_id p.1 odds snap db
    let (ent_id, db) := upsert_entity_with_alias p.1 snap (guess_entity_type p.1) db
    link_outcome_entity outcome_id ent_id db
  else db

/-- The per-block body of the `for market_title, items in ...` loop. -/
def ingest_block (sections : List String) (sec_ids : List (String × Nat)) (snap : Nat)
    (db : DBState) (blk : Block) : DBState :=
  let maybe_section := match_section_for_market blk.1 sections
  let (event_id, db) :=
    match maybe_section with
    | some s =>
      if pyTruthyStr s then
        let (eid, db') := upsert_event s (lookupSecId sec_ids s) db
        (some eid, db')
      else (none, db)
    | none => (none, db)
  let (m_id, db) := upsert_market blk.1 event_id snap db
  blk.2.foldl (ingest_entry m_id snap) db

/-- The ingestion body of `TotoF1Client.refresh`: upsert every extracted
section, then every market block with its outcomes, entities, aliases and
links, all under the one snapshot id. -/
def ingest_lines (lines : List String) (snap : Nat) (db0 : DBState) : DBState :=
  let sections := extract_sections lines
  let (sec_ids, db1) := sections.foldl
    (fun (acc : List (String × Nat) × DBState) s =>
      let (i, db') := upsert_section s acc.2
      (acc.1 ++ [(s, i)], db'))
    ([], db0)
  (extract_market_blocks lines).foldl (ingest_block sections sec_ids snap) db1

/-! ## CLI store opening (`DB.__init__` via `sqlite3.connect`)

`sqlite3.connect(path)` on a path whose file does not exist does not raise:
sqlite creates a fresh empty database file there, and `executescript(SCHEMA)`
then creates the empty tables.  The auxiliary CLI (`__main__`) constructs
`TotoF1Client(db_path=args.db)` before looking at any flag, so a missing
file simply yields an empty store. -/

/-- `DB.__init__` as seen from the CLI: the optional argument is the
database the path's file held, `none` when no such file exists.  There is no
error branch for a missing file. -/
def DB_init (existing : Option DBState) : Except String DBState :=
  Except.ok (existing.getD DBState.empty)

/-! ## Store invariants and reachability -/

/-- The market rows carrying a given name (the `UNIQUE(name)` constraint
keeps this at one row at most). -/
def marketsWithName (db : DBState) (name : String) : List MarketR :=
  db.markets.filter (fun r => r.name == name)

/-- Structural store invariants maintained by every public write operation:
outcome rows always carry the derived implied probability; entity ids are
fresh, increasing and unique; every alias row points at an existing entity
whose canonical key equals the alias key; and no entity carries two alias
rows. -/
def StoreInv (db : DBState) : Prop :=
  (∀ o ∈ db.outcomes, o.implied_prob = implied_probability o.odds_decimal) ∧
  (∀ e ∈ db.entities, e.id < db.next_entity_id) ∧
  ((db.entities.map EntityR.id).Pairwise (· < ·)) ∧
  (∀ a ∈ db.entity_aliases, ∃ e ∈ db.entities,
    e.id = a.entity_id ∧ e.canonical_key = a.alias_key) ∧
  ((db.entity_aliases.map AliasR.entity_id).Nodup)

/-- Database states reachable from a fresh store through the public write
operations of `DB` (the operations the ingestion pipeline is built from). -/
inductive Reachable : DBState → Prop
  | init : Reachable DBState.empty
  | snap (url html : String) {db : DBState} :
      Reachable db → Reachable (new_snapshot url html db).2
  | sec (title : String) {db : DBState} :
      Reachable db → Reachable (upsert_section title db).2
  | ev (name : String) (section_id : Option Nat) {db : DBState} :
      Reachable db → Reachable (upsert_event name section_id db).2
  | mkt (name : String) (event_id : Option Nat) (snapshot_id : Nat) {db : DBState} :
      Reachable db → Reachable (upsert_market name event_id snapshot_id db).2
  | outc (market_id : Nat) (sel : String) (odds : ℚ) (snapshot_id : Nat) {db : DBState} :
      Reachable db → Reachable (insert_outcome market_id sel odds snapshot_id db).2
  | ent (name : String) (snapshot_id : Nat) (typ : Option String) {db : DBState} :
      Reachable db → Reachable (upsert_entity_with_alias name snapshot_id typ db).2
  | lnk (outcome_id entity_id : Nat) {db : DBState} :
      Reachable db → Reachable (link_outcome_entity outcome_id entity_id db)

/-! ## Concrete scenario data used by the claim theorems -/

/-- The end-to-end scenario input lines of the specification. -/
def scenario_lines : List String :=
  ["Alles", "Formula 1 2024", "Race Winner", "Verstappen, Max", "1,50", "Pérez, Sergio", "8,00"]

/-- The store produced by ingesting the scenario lines into a fresh store
under snapshot 1. -/
def scenario_db : DBState := ingest_lines scenario_lines 1 DBState.empty

/-- A block input repeating one `(selection, odds)` pair inside one block. -/
def dedup_lines : List String :=
  ["Race Winner", "Verstappen, Max", "1,50", "Hamilton, Lewis", "2,00", "Verstappen, Max", "1,50"]

/-- A store where market 1 has outcomes in snapshots 1 and 2 while market 2
only has one in snapshot 1 (so market 2's latest is not the global latest). -/
def latest_db : DBState :=
  (insert_outcome 2 "C" 0 1
    ((insert_outcome 1 "B" 0 2
      ((insert_outcome 1 "A" 0 1 DBState.empty).2)).2)).2

/-- A store holding one resolved entity with its single alias row. -/
def entity_db : DBState :=
  (upsert_entity_with_alias "Verstappen, Max" 1 (some "driver") DBState.empty).2

/-! # Theorems -/

/-! ## Digit and mangling lemmas (towards C4) -/

theorem isDigit_ne_dot {c : Char} (h : isDigit c = true) : c ≠ '.' := by
  rintro rfl
  exact absurd h (by decide)

theorem isDigit_ne_comma {c : Char} (h : isDigit c = true) : c ≠ ',' := by
  rintro rfl
  exact absurd h (by decide)

theorem mangleOdds_cons_digit {c : Char} (h : isDigit c = true) (cs : List Char) :
    mangleOdds (c :: cs) = c :: mangleOdds cs := by
  simp [mangleOdds, List.filter_cons, isDigit_ne_dot h, isDigit_ne_comma h]

theorem mangleOdds_cons_dot (cs : List Char) : mangleOdds ('.' :: cs) = mangleOdds cs := by
  simp [mangleOdds, List.filter_cons]

theorem mangleOdds_append (u v : List Char) :
    mangleOdds (u ++ v) = mangleOdds u ++ mangleOdds v := by
  simp [mangleOdds, List.filter_append]

theorem mangleOdds_all_digits {u : List Char} (hu : ∀ c ∈ u, isDigit c = true) :
    mangleOdds u = u := by
  induction u with
  | nil => rfl
  | cons c cs ih =>
    rw [mangleOdds_cons_digit (hu c (by simp)), ih (fun x hx => hu x (by simp [hx]))]

theorem filter_isDigit_all {u : List Char} (hu : ∀ c ∈ u, isDigit c = true) :
    u.filter isDigit = u :=
  List.filter_eq_self.mpr hu

/-- Shape of every string accepted by the `(?:\.\d{3})*,\d{2}$` tail: the
replaces turn it into `digits ++ "." ++ two digits`, and its digit characters
are those groups in order. -/
theorem oddsTail_shape (rest : List Char) (h : oddsTail rest = true) :
    ∃ g a b, (∀ c ∈ g, isDigit c = true) ∧ isDigit a = true ∧ isDigit b = true ∧
      mangleOdds rest = g ++ ['.', a, b] ∧ rest.filter isDigit = g ++ [a, b] := by
  induction rest using oddsTail.induct with
  | case1 x y z rest ih =>
    rw [oddsTail] at h
    simp only [Bool.and_eq_true] at h
    obtain ⟨⟨⟨hx, hy⟩, hz⟩, hr⟩ := h
    obtain ⟨g, a, b, hg, ha, hb, hm, hf⟩ := ih hr
    refine ⟨x :: y :: z :: g, a, b, ?_, ha, hb, ?_, ?_⟩
    · intro c hc
      simp only [List.mem_cons] at hc
      rcases hc with rfl | rfl | rfl | hc
      · exact hx
      · exact hy
      · exact hz
      · exact hg c hc
    · rw [mangleOdds_cons_dot, mangleOdds_cons_digit hx, mangleOdds_cons_digit hy,
        mangleOdds_cons_digit hz, hm]
      rfl
    · have hdot : isDigit '.' = false := by decide
      simp [List.filter_cons, hdot, hx, hy, hz, hf]
  | case2 a b =>
    rw [oddsTail] at h
    simp only [Bool.and_eq_true] at h
    obtain ⟨ha, hb⟩ := h
    refine ⟨[], a, b, by simp, ha, hb, ?_, ?_⟩
    · simp [mangleOdds, List.filter_cons, isDigit_ne_dot ha, isDigit_ne_dot hb,
        isDigit_ne_comma ha, isDigit_ne_comma hb]
    · have hcm : isDigit ',' = false := by decide
      simp [List.filter_cons, hcm, ha, hb]
  | case3 t h1 h2 =>
    rw [oddsTail.eq_def] at h
    split at h
    · exact (h1 _ _ _ _ rfl).elim
    · exact (h2 _ _ rfl).elim
    · exact absurd h (by simp)

theorem takeWhile_all_append {p : Char → Bool} {u : List Char} (hu : ∀ c ∈ u, p c = true)
    {v0 : Char} (hv : p v0 = false) (vs : List Char) :
    (u ++ v0 :: vs).takeWhile p = u ∧ (u ++ v0 :: vs).dropWhile p = v0 :: vs := by
  induction u with
  | nil => simp [List.takeWhile_cons, List.dropWhile_cons, hv]
  | cons c cs ih =>
    have hc := hu c (by simp)
    have h2 := ih (fun x hx => hu x (by simp [hx]))
    simp [List.takeWhile_cons, List.dropWhile_cons, hc, h2.1, h2.2]

theorem digitsVal_go (y : List Char) (a : Nat) :
    y.foldl (fun acc c => 10 * acc + digitVal c) a = a * 10 ^ y.length + digitsVal y := by
  induction y generalizing a with
  | nil => simp [digitsVal]
  | cons c ys ih =>
    have hexp : digitsVal (c :: ys) = digitVal c * 10 ^ ys.length + digitsVal ys := by
      show List.foldl _ 0 _ = _
      rw [List.foldl_cons, ih]
      norm_num
    rw [List.foldl_cons, ih, hexp, List.length_cons]
    ring

theorem digitsVal_append (x y : List Char) :
    digitsVal (x ++ y) = digitsVal x * 10 ^ y.length + digitsVal y := by
  unfold digitsVal
  rw [List.foldl_append]
  exact digitsVal_go y _

theorem pyFloatDec_shape {D : List Char} (hD : ∀ c ∈ D, isDigit c = true) (hne : D ≠ [])
    {a b : Char} (ha : isDigit a = true) (hb : isDigit b = true) :
    pyFloatDec (D ++ '.' :: [a, b]) =
      some ((digitsVal D : ℚ) + (digitsVal [a, b] : ℚ) / 100) := by
  have hdot : isDigit '.' = false := by decide
  have htk := takeWhile_all_append hD hdot [a, b]
  have hDe : D.isEmpty = false := by
    cases D with
    | nil => exact absurd rfl hne
    | cons _ _ => rfl
  simp only [pyFloatDec, htk.1, htk.2, hDe, List.all_cons, List.all_nil, ha, hb,
    Bool.and_true, Bool.and_self, Bool.false_and, Bool.not_false, if_true, List.length_cons,
    List.length_nil]
  norm_num

/-- C4: every string matching the localized decimal-odds pattern parses to
the rational spelt by its digit characters over two decimal places
(`"12,50" ↦ 25/2`, `"1.234,56" ↦ 30864/25`), and every non-matching string
is a signalled parse failure (`none`), never a silently coerced value. -/
theorem parseLocalizedOdds_spec :
    (∀ s : String, oddsDutchMatch s = true →
      parseLocalizedOdds s = some ((digitsVal (s.data.filter isDigit) : ℚ) / 100)) ∧
    (∀ s : String, oddsDutchMatch s = false → parseLocalizedOdds s = none) ∧
    parseLocalizedOdds "12,50" = some (25 / 2) ∧
    parseLocalizedOdds "1.234,56" = some (30864 / 25) := by
  refine ⟨?_, ?_, by with_unfolding_all rfl, by with_unfolding_all rfl⟩
  · intro s h
    have h0 := h
    unfold oddsDutchMatch at h0
    simp only [Bool.and_eq_true, decide_eq_true_eq] at h0
    obtain ⟨⟨h1, _h2⟩, h3⟩ := h0
    obtain ⟨g, a, b, hg, ha, hb, hm, hf⟩ := oddsTail_shape _ h3
    have hd : ∀ c ∈ s.data.takeWhile isDigit, isDigit c = true :=
      fun c hc => List.mem_takeWhile_imp hc
    have hsplit : s.data.takeWhile isDigit ++ s.data.dropWhile isDigit = s.data :=
      List.takeWhile_append_dropWhile isDigit s.data
    have hdg : ∀ c ∈ s.data.takeWhile isDigit ++ g, isDigit c = true := by
      intro c hc
      rcases List.mem_append.mp hc with hc | hc
      · exact hd c hc
      · exact hg c hc
    have hne : s.data.takeWhile isDigit ++ g ≠ [] := by
      intro he
      rcases List.append_eq_nil.mp he with ⟨he1, _⟩
      rw [he1] at h1
      simp at h1
    have hmangle : mangleOdds s.data = (s.data.takeWhile isDigit ++ g) ++ '.' :: [a, b] := by
      rw [← hsplit, mangleOdds_append, mangleOdds_all_digits hd, hm]
      simp
    have hfil : s.data.filter isDigit = (s.data.takeWhile isDigit ++ g) ++ [a, b] := by
      rw [← hsplit, List.filter_append, filter_isDigit_all hd, hf]
      simp
    have hparse : parse_dutch_decimal s =
        some ((digitsVal (s.data.takeWhile isDigit ++ g) : ℚ) + (digitsVal [a, b] : ℚ) / 100) := by
      unfold parse_dutch_decimal
      rw [hmangle]
      exact pyFloatDec_shape hdg hne ha hb
    unfold parseLocalizedOdds
    rw [if_pos h, hparse, hfil]
    congr 1
    simp only [digitsVal_append, List.length_append, List.length_cons, List.length_nil]
    push_cast
    field_simp
  · intro s h
    simp [parseLocalizedOdds, h]

/-- Witness for C4 at the concrete inputs `"12,50"` (matching) and `"abc"`
(non-matching). -/
theorem parseLocalizedOdds_spec_witness :
    oddsDutchMatch "12,50" = true ∧
    parseLocalizedOdds "12,50" = some ((digitsVal ("12,50".data.filter isDigit) : ℚ) / 100) ∧
    oddsDutchMatch "abc" = false ∧ parseLocalizedOdds "abc" = none :=
  ⟨by decide, parseLocalizedOdds_spec.1 "12,50" (by decide), by decide,
   parseLocalizedOdds_spec.2.1 "abc" (by decide)⟩

/-! ## C1: accent handling of `canonical_key` -/

/-- C1 (evaluation at the failing input): the character-class strip runs
before the transliteration table, so the accented letter of `"Pérez"` is
deleted rather than transliterated; the two spellings get different keys,
contradicting the claimed accent-insensitivity. -/
theorem canonical_key_accent_evaluation :
    canonical_key "Pérez" = "prez" ∧ canonical_key "Perez" = "perez" ∧
    canonical_key "Pérez" ≠ canonical_key "Perez" := by
  refine ⟨by decide, by decide, by decide⟩

/-! ## C2: the end-to-end ingestion scenario -/

/-- C2 counterexample: on the spec's scenario lines the pipeline stores two
section rows (the heuristic also captures `"Race Winner"` as a tab), not
exactly one, and the second entity's canonical key is `"prez sergio"`, not
`"perez sergio"`. -/
theorem ingest_scenario_counterexample :
    scenario_db.sections.length ≠ 1 ∧
    scenario_db.entities.map EntityR.canonical_key ≠ ["verstappen max", "perez sergio"] := by
  refine ⟨by decide, by decide⟩

/-- C2 amended: ingesting the scenario lines into an empty store under one
snapshot yields exactly two sections (`"Formula 1 2024"` and
`"Race Winner"`), one market `"Race Winner"` with exactly two outcomes of
decimal odds 1.50 and 8.00, and two entities with canonical keys
`"verstappen max"` and `"prez sergio"`. -/
theorem ingest_scenario_amended :
    scenario_db.sections.map SectionR.title = ["Formula 1 2024", "Race Winner"] ∧
    scenario_db.markets.map MarketR.name = ["Race Winner"] ∧
    scenario_db.outcomes.map (fun o => (o.market_id, o.odds_decimal)) =
      [(1, 3 / 2), (1, 8)] ∧
    scenario_db.entities.map EntityR.canonical_key = ["verstappen max", "prez sergio"] := by
  refine ⟨by decide, by decide, by with_unfolding_all rfl, by decide⟩

/-! ## C9: CLI behaviour on a missing database file -/

/-- C9 counterexample: opening the store on a database path whose file does
not exist is not an error — `sqlite3.connect` creates the file, so there is
no failing branch to take. -/
theorem DB_init_missing_not_error : ¬ ∃ e, DB_init none = Except.error e := by
  rintro ⟨e, he⟩
  simp [DB_init] at he

/-- C9 amended: invoked with a database path naming no existing file, the
CLI's store layer succeeds with a fresh empty database (no pre-existing
rows) instead of failing. -/
theorem DB_init_missing_creates_empty :
    DB_init none = Except.ok DBState.empty ∧ DBState.empty.markets = [] ∧
    DBState.empty.outcomes = [] ∧ DBState.empty.sections = [] :=
  ⟨rfl, rfl, rfl, rfl⟩

/-! ## C8: de-duplication inside flushed blocks -/

theorem dedup_aux_mono (items : List Entry) (acc : List Entry) {q : Entry} (hq : q ∈ acc) :
    q ∈ items.foldl (fun acc p => if acc.contains p then acc else acc ++ [p]) acc := by
  induction items generalizing acc with
  | nil => simpa
  | cons p rest ih =>
    simp only [List.foldl_cons]
    apply ih
    cases hc : acc.contains p
    · simp [hc, hq]
    · simp [hc, hq]

theorem dedup_aux_mem (items : List Entry) (acc : List Entry) {q : Entry} (hq : q ∈ items) :
    q ∈ items.foldl (fun acc p => if acc.contains p then acc else acc ++ [p]) acc := by
  induction items generalizing acc with
  | nil => cases hq
  | cons p rest ih =>
    simp only [List.foldl_cons]
    rcases List.mem_cons.mp hq with rfl | hq
    · apply dedup_aux_mono
      cases hc : acc.contains q
      · simp [hc]
      · simp only [hc, if_pos rfl]
        exact List.mem_of_elem_eq_true hc
    · exact ih _ hq

theorem dedup_aux_nodup (items : List Entry) (acc : List Entry) (h : acc.Nodup) :
    (items.foldl (fun acc p => if acc.contains p then acc else acc ++ [p]) acc).Nodup := by
  induction items generalizing acc with
  | nil => simpa
  | cons p rest ih =>
    simp only [List.foldl_cons]
    apply ih
    cases hc : acc.contains p
    · have hp : p ∉ acc := by
        intro hm
        have hx : acc.contains p = true := List.elem_eq_true_of_mem hm
        rw [hx] at hc
        cases hc
      simp [hc, List.nodup_append, h, hp]
    · simpa [hc]

theorem dedup_aux_append (items : List Entry) :
    ∀ acc, ∃ t, items.foldl (fun acc p => if acc.contains p then acc else acc ++ [p]) acc =
      acc ++ t ∧ t.Sublist items := by
  induction items with
  | nil => exact fun acc => ⟨[], by simp, List.nil_sublist _⟩
  | cons p rest ih =>
    intro acc
    simp only [List.foldl_cons]
    cases hc : acc.contains p
    · obtain ⟨t, ht, hs⟩ := ih (acc ++ [p])
      refine ⟨p :: t, ?_, hs.cons₂ p⟩
      rw [if_neg (by simp), ht, List.append_assoc]
      rfl
    · obtain ⟨t, ht, hs⟩ := ih acc
      refine ⟨t, ?_, hs.cons p⟩
      rw [if_pos rfl, ht]

theorem dedupFirst_nodup (items : List Entry) : (dedupFirst items).Nodup :=
  dedup_aux_nodup items [] (by simp)

theorem dedupFirst_sublist (items : List Entry) : (dedupFirst items).Sublist items := by
  obtain ⟨t, ht, hs⟩ := dedup_aux_append items []
  unfold dedupFirst
  rw [ht]
  simpa using hs

theorem dedupFirst_mem (items : List Entry) {p : Entry} (hp : p ∈ items) :
    p ∈ dedupFirst items :=
  dedup_aux_mem items [] hp

/-- `flush()` with no open title emits nothing. -/
theorem flushBlock_none (items : List Entry) (blocks : List Block) :
    flushBlock none items blocks = blocks := rfl

/-- `flush()` with an open title emits the deduplicated block when title and
items are truthy. -/
theorem flushBlock_some (t : String) (items : List Entry) (blocks : List Block) :
    flushBlock (some t) items blocks =
      (if pyTruthyStr t && !items.isEmpty then blocks ++ [(t, dedupFirst items)]
       else blocks) := rfl

theorem flushBlock_nodup {title : Option String} {items : List Entry} {blocks : List Block}
    (h : ∀ b ∈ blocks, (b.2 : List Entry).Nodup) :
    ∀ b ∈ flushBlock title items blocks, (b.2 : List Entry).Nodup := by
  intro b hb
  cases title with
  | none =>
    rw [flushBlock_none] at hb
    exact h b hb
  | some t =>
    rw [flushBlock_some] at hb
    by_cases hcond : (pyTruthyStr t && !items.isEmpty) = true
    · rw [if_pos hcond] at hb
      rcases List.mem_append.mp hb with hb2 | hb2
      · exact h b hb2
      · simp only [List.mem_singleton] at hb2
        subst hb2
        exact dedupFirst_nodup items
    · rw [if_neg hcond] at hb
      exact h b hb

/-! One-step unfolding equations for the scanner (each is definitional). -/

theorem eba_nil (title : Option String) (items : List Entry) (blocks : List Block) :
    extract_blocks_aux [] title items blocks = flushBlock title items blocks := rfl

theorem eba_cons_none (ln0 : String) (rest : List String) (items : List Entry)
    (blocks : List Block) :
    extract_blocks_aux (ln0 :: rest) none items blocks =
      (if looks_like_market_title (wsnorm ln0) then
        extract_blocks_aux rest (some (wsnorm ln0)) items blocks
      else extract_blocks_aux rest none items blocks) := rfl

theorem eba_single_some (ln0 : String) (t : String) (items : List Entry)
    (blocks : List Block) :
    extract_blocks_aux [ln0] (some t) items blocks =
      (if beginsWith (pyLowerStr (wsnorm ln0)).data "bekijk meer".data then
        extract_blocks_aux [] (some t) items blocks
      else if looks_like_market_title (wsnorm ln0) then
        extract_blocks_aux [] (some (wsnorm ln0)) [] (flushBlock (some t) items blocks)
      else flushBlock (some t) items blocks) := rfl

theorem eba_cons2_some (ln0 nxt : String) (rest2 : List String) (t : String)
    (items : List Entry) (blocks : List Block) :
    extract_blocks_aux (ln0 :: nxt :: rest2) (some t) items blocks =
      (if beginsWith (pyLowerStr (wsnorm ln0)).data "bekijk meer".data then
        extract_blocks_aux (nxt :: rest2) (some t) items blocks
      else if looks_like_market_title (wsnorm ln0) then
        extract_blocks_aux (nxt :: rest2) (some (wsnorm ln0)) [] (flushBlock (some t) items blocks)
      else if oddsDutchMatch nxt then
        extract_blocks_aux rest2 (some t) (items ++ [(wsnorm ln0, nxt)]) blocks
      else extract_blocks_aux (nxt :: rest2) (some t) items blocks) := rfl

theorem extract_blocks_aux_nodup_n :
    ∀ (n : Nat) (lines : List String), lines.length ≤ n →
      ∀ (title : Option String) (items : List Entry) (blocks : List Block),
        (∀ b ∈ blocks, (b.2 : List Entry).Nodup) →
        ∀ b ∈ extract_blocks_aux lines title items blocks, (b.2 : List Entry).Nodup := by
  intro n
  induction n with
  | zero =>
    intro lines hlen title items blocks h b hb
    rcases lines with _ | ⟨ln0, rest⟩
    · rw [eba_nil] at hb
      exact flushBlock_nodup h b hb
    · simp at hlen
  | succ n ih =>
    intro lines hlen title items blocks h b hb
    rcases lines with _ | ⟨ln0, rest⟩
    · rw [eba_nil] at hb
      exact flushBlock_nodup h b hb
    · have hlen1 : rest.length ≤ n := by
        simp only [List.length_cons] at hlen
        omega
      cases title with
      | none =>
        rw [eba_cons_none] at hb
        by_cases hc : looks_like_market_title (wsnorm ln0) = true
        · rw [if_pos hc] at hb
          exact ih rest hlen1 _ _ _ h b hb
        · rw [if_neg hc] at hb
          exact ih rest hlen1 _ _ _ h b hb
      | some t =>
        rcases rest with _ | ⟨nxt, rest2⟩
        · rw [eba_single_some] at hb
          by_cases hc1 : beginsWith (pyLowerStr (wsnorm ln0)).data "bekijk meer".data = true
          · rw [if_pos hc1] at hb
            exact ih [] (by simp) _ _ _ h b hb
          · rw [if_neg hc1] at hb
            by_cases hc2 : looks_like_market_title (wsnorm ln0) = true
            · rw [if_pos hc2] at hb
              exact ih [] (by simp) _ _ _ (flushBlock_nodup h) b hb
            · rw [if_neg hc2] at hb
              exact flushBlock_nodup h b hb
        · have hlen2 : rest2.length ≤ n := by
            simp only [List.length_cons] at hlen1
            omega
          have hlen12 : (nxt :: rest2).length ≤ n := hlen1
          rw [eba_cons2_some] at hb
          by_cases hc1 : beginsWith (pyLowerStr (wsnorm ln0)).data "bekijk meer".data = true
          · rw [if_pos hc1] at hb
            exact ih _ hlen12 _ _ _ h b hb
          · rw [if_neg hc1] at hb
            by_cases hc2 : looks_like_market_title (wsnorm ln0) = true
            · rw [if_pos hc2] at hb
              exact ih _ hlen12 _ _ _ (flushBlock_nodup h) b hb
            · rw [if_neg hc2] at hb
              by_cases hc3 : oddsDutchMatch nxt = true
              · rw [if_pos hc3] at hb
                exact ih _ hlen2 _ _ _ h b hb
              · rw [if_neg hc3] at hb
                exact ih _ hlen12 _ _ _ h b hb

theorem extract_blocks_aux_nodup (lines : List String) (title : Option String)
    (items : List Entry) (blocks : List Block)
    (h : ∀ b ∈ blocks, (b.2 : List Entry).Nodup) :
    ∀ b ∈ extract_blocks_aux lines title items blocks, (b.2 : List Entry).Nodup :=
  extract_blocks_aux_nodup_n lines.length lines (Nat.le_refl _) title items blocks h

/-- C8: every block emitted by the Text-Block Extractor has pairwise distinct
`(selection, odds)` entries; the de-duplication keeps first occurrences in
input order (it yields a sublist of the raw entry stream that still contains
every raw pair); and an input repeating one pair inside one block yields the
single deduplicated entry. -/
theorem extract_blocks_dedup_spec :
    (∀ lines : List String, ∀ b ∈ extract_market_blocks lines, (b.2 : List Entry).Nodup) ∧
    (∀ items : List Entry, (dedupFirst items).Nodup ∧ (dedupFirst items).Sublist items ∧
      ∀ p ∈ items, p ∈ dedupFirst items) ∧
    extract_market_blocks dedup_lines =
      [("Race Winner", [("Verstappen, Max", "1,50"), ("Hamilton, Lewis", "2,00")])] := by
  refine ⟨?_, ?_, by decide⟩
  · intro lines b hb
    exact extract_blocks_aux_nodup lines none [] [] (by simp) b hb
  · intro items
    exact ⟨dedupFirst_nodup items, dedupFirst_sublist items,
      fun p hp => dedupFirst_mem items hp⟩

/-- Witness for C8: the scanned scenario block is in the output, and the
theorem certifies its entries pairwise distinct. -/
theorem extract_blocks_dedup_spec_witness :
    (("Race Winner", [("Verstappen, Max", "1,50"), ("Hamilton, Lewis", "2,00")]) ∈
      extract_market_blocks dedup_lines) ∧
    ([("Verstappen, Max", "1,50"), ("Hamilton, Lewis", "2,00")] : List Entry).Nodup :=
  ⟨by decide,
   extract_blocks_dedup_spec.1 dedup_lines
     ("Race Winner", [("Verstappen, Max", "1,50"), ("Hamilton, Lewis", "2,00")]) (by decide)⟩

/-! ## C6: idempotent market upserts -/

theorem filter_map_of_pred_inv {α : Type} (f : α → α) (p : α → Bool) (l : List α)
    (hf : ∀ x, p (f x) = p x) : (l.map f).filter p = (l.filter p).map f := by
  induction l with
  | nil => rfl
  | cons a l ih =>
    simp only [List.map_cons, List.filter_cons, hf a]
    cases hp : p a
    · simp [ih]
    · simp [ih]

theorem find?_of_filter_single {α : Type} {l : List α} {p : α → Bool} {r0 : α}
    (hfil : l.filter p = [r0]) : l.find? p = some r0 := by
  induction l with
  | nil => simp at hfil
  | cons a l ih =>
    rw [List.filter_cons] at hfil
    cases hp : p a
    · rw [hp] at hfil
      rw [List.find?_cons_of_neg _ (by simp [hp])]
      apply ih
      simpa using hfil
    · rw [hp, if_pos rfl] at hfil
      rw [List.find?_cons_of_pos _ hp]
      injection hfil with h1 _
      rw [h1]

/-- After the INSERT OR IGNORE, exactly one market row carries the name. -/
theorem insertOrIgnore_market_single (db : DBState) (name : String) (ev : Option Nat)
    (snap : Nat) (h : (marketsWithName db name).length ≤ 1) :
    ∃ r0 : MarketR, marketsWithName (sqlInsertOrIgnoreMarket name ev snap db) name = [r0] ∧
      r0.name = name := by
  unfold sqlInsertOrIgnoreMarket
  by_cases hany : db.markets.any (fun r => r.name == name) = true
  · rw [if_pos hany]
    obtain ⟨x, hx, hpx⟩ := List.any_eq_true.mp hany
    have hmem : x ∈ marketsWithName db name := List.mem_filter.mpr ⟨hx, hpx⟩
    have hlen : 1 ≤ (marketsWithName db name).length := by
      cases hfil : marketsWithName db name with
      | nil => rw [hfil] at hmem; cases hmem
      | cons y l => simp [hfil]
    obtain ⟨r0, hr0⟩ := List.length_eq_one.mp (le_antisymm h hlen)
    refine ⟨r0, hr0, ?_⟩
    have hm : r0 ∈ marketsWithName db name := by simp [hr0]
    exact beq_iff_eq.mp (List.mem_filter.mp hm).2
  · rw [if_neg hany]
    have hnil : db.markets.filter (fun r => r.name == name) = [] := by
      rw [List.filter_eq_nil_iff]
      intro x hx hpx
      exact hany (List.any_eq_true.mpr ⟨x, hx, hpx⟩)
    refine ⟨⟨db.next_market_id, ev, name, snap⟩, ?_, rfl⟩
    unfold marketsWithName
    dsimp only
    rw [List.filter_append, hnil]
    simp

/-- The branch of `upsert_market` taken when the SELECT finds the row. -/
theorem upsert_market_eq_found (name : String) (ev : Option Nat) (snap : Nat) (db : DBState)
    (row : MarketR)
    (hfind : (sqlInsertOrIgnoreMarket name ev snap db).markets.find?
      (fun r => r.name == name) = some row) :
    upsert_market name ev snap db =
      (row.id,
       if pyTruthyOpt ev && !(row.event_id == ev) then
         sqlUpdateMarket row.id (fun r => { r with event_id := ev })
           (sqlUpdateMarket row.id (fun r => { r with last_seen_snapshot_id := snap })
             (sqlInsertOrIgnoreMarket name ev snap db))
       else
         sqlUpdateMarket row.id (fun r => { r with last_seen_snapshot_id := snap })
           (sqlInsertOrIgnoreMarket name ev snap db)) := by
  simp only [upsert_market]
  rw [hfind]
  dsimp only
  by_cases hc : (pyTruthyOpt ev && !(row.event_id == ev)) = true
  · rw [if_pos hc, if_pos hc]
  · rw [if_neg hc, if_neg hc]

/-- Name-filtered rows after an UPDATE ... WHERE id. -/
theorem marketsWithName_update (i : Nat) (f : MarketR → MarketR) (db : DBState) (name : String)
    (hf : ∀ r, (f r).name = r.name) :
    marketsWithName (sqlUpdateMarket i f db) name =
      (marketsWithName db name).map (fun r => if r.id == i then f r else r) := by
  unfold marketsWithName sqlUpdateMarket
  exact filter_map_of_pred_inv _ _ _ (fun r => by cases hb : (r.id == i) <;> simp [hb, hf r])

/-- One `upsert_market` call leaves exactly one row under the name, stamped
with the call's snapshot id. -/
theorem upsert_market_step (db : DBState) (name : String) (ev : Option Nat) (snap : Nat)
    (h : (marketsWithName db name).length ≤ 1) :
    ∃ r : MarketR, marketsWithName (upsert_market name ev snap db).2 name = [r] ∧
      r.last_seen_snapshot_id = snap ∧ r.name = name := by
  obtain ⟨r0, hfil, hr0name⟩ := insertOrIgnore_market_single db name ev snap h
  have hfind : (sqlInsertOrIgnoreMarket name ev snap db).markets.find?
      (fun r => r.name == name) = some r0 := find?_of_filter_single hfil
  rw [upsert_market_eq_found name ev snap db r0 hfind]
  by_cases hcond : (pyTruthyOpt ev && !(r0.event_id == ev)) = true
  · rw [if_pos hcond]
    rw [marketsWithName_update r0.id (fun r => { r with event_id := ev }) _ name
        (fun r => rfl),
      marketsWithName_update r0.id (fun r => { r with last_seen_snapshot_id := snap }) _ name
        (fun r => rfl),
      hfil]
    refine ⟨_, rfl, ?_, ?_⟩
    · simp
    · simpa using hr0name
  · rw [if_neg hcond]
    rw [marketsWithName_update r0.id (fun r => { r with last_seen_snapshot_id := snap }) _ name
        (fun r => rfl),
      hfil]
    refine ⟨_, rfl, ?_, ?_⟩
    · simp
    · simpa using hr0name

/-- C6: upserting the same market name under two snapshot ids leaves exactly
one row with that name, and that row's `last_seen_snapshot_id` is the second
(most recent) snapshot id, from any store state satisfying the UNIQUE(name)
constraint. -/
theorem upsert_market_twice (db : DBState) (name : String) (ev1 ev2 : Option Nat)
    (s1 s2 : Nat) (h : (marketsWithName db name).length ≤ 1) :
    (marketsWithName (upsert_market name ev2 s2 (upsert_market name ev1 s1 db).2).2 name).length
        = 1 ∧
    ∀ r ∈ (upsert_market name ev2 s2 (upsert_market name ev1 s1 db).2).2.markets,
      r.name = name → r.last_seen_snapshot_id = s2 := by
  obtain ⟨r1, hfil1, _, _⟩ := upsert_market_step db name ev1 s1 h
  have h1 : (marketsWithName (upsert_market name ev1 s1 db).2 name).length ≤ 1 := by
    rw [hfil1]
    exact Nat.le_refl 1
  obtain ⟨r2, hfil2, hlast2, _⟩ := upsert_market_step _ name ev2 s2 h1
  refine ⟨by rw [hfil2]; rfl, ?_⟩
  intro r hr hname
  have hmem : r ∈ marketsWithName (upsert_market name ev2 s2
      (upsert_market name ev1 s1 db).2).2 name :=
    List.mem_filter.mpr ⟨hr, by simp [hname]⟩
  rw [hfil2] at hmem
  simp only [List.mem_singleton] at hmem
  rw [hmem]
  exact hlast2

/-- Witness for C6 on a fresh store: two upserts of `"Race Winner"` under
snapshots 5 then 9. -/
theorem upsert_market_twice_witness :
    (marketsWithName DBState.empty "Race Winner").length ≤ 1 ∧
    ((marketsWithName (upsert_market "Race Winner" none 9
        (upsert_market "Race Winner" none 5 DBState.empty).2).2 "Race Winner").length = 1 ∧
      ∀ r ∈ (upsert_market "Race Winner" none 9
          (upsert_market "Race Winner" none 5 DBState.empty).2).2.markets,
        r.name = "Race Winner" → r.last_seen_snapshot_id = 9) :=
  ⟨by decide, upsert_market_twice DBState.empty "Race Winner" none none 5 9 (by decide)⟩

/-! ## C3: entity resolution across spelling variants -/

/-- C3 amended: two spellings with equal canonical keys resolve to the
identical entity id both times, but the alias list afterwards holds only the
first spelling — the second upsert merely bumps that alias row's last-seen
snapshot to the second snapshot id, because the alias table is unique per
`(entity, aliasKey)` and both spellings share the key. -/
theorem upsert_entity_same_key_amended (n1 n2 : String) (s1 s2 : Nat) (t1 t2 : Option String)
    (hk : canonical_key n1 = canonical_key n2) (_hne : n1 ≠ n2) :
    (upsert_entity_with_alias n1 s1 t1 DBState.empty).1 =
      (upsert_entity_with_alias n2 s2 t2
        (upsert_entity_with_alias n1 s1 t1 DBState.empty).2).1 ∧
    entity_aliases
      (upsert_entity_with_alias n2 s2 t2
        (upsert_entity_with_alias n1 s1 t1 DBState.empty).2).2
      (upsert_entity_with_alias n1 s1 t1 DBState.empty).1 = [(n1, s1, s2)] := by
  have hbeq : (canonical_key n1 == canonical_key n2) = true := by
    rw [hk]
    simp
  constructor <;>
    simp [upsert_entity_with_alias, upsert_alias, entity_aliases, DBState.empty, hbeq]

/-- C3 counterexample: two distinct spellings with the same canonical key for
which the second spelling does not appear in the entity's alias list. -/
theorem upsert_entity_alias_counterexample :
    canonical_key "Verstappen, Max" = canonical_key "VERSTAPPEN,  MAX" ∧
    "Verstappen, Max" ≠ "VERSTAPPEN,  MAX" ∧
    ¬ ("VERSTAPPEN,  MAX" ∈
        (entity_aliases
          (upsert_entity_with_alias "VERSTAPPEN,  MAX" 2 (some "driver")
            (upsert_entity_with_alias "Verstappen, Max" 1 (some "driver") DBState.empty).2).2
          (upsert_entity_with_alias "Verstappen, Max" 1
            (some "driver") DBState.empty).1).map (fun x => x.1)) := by
  refine ⟨by decide, by decide, by decide⟩

/-- Witness for C3's amended theorem at two concrete spellings. -/
theorem upsert_entity_same_key_amended_witness :
    canonical_key "Verstappen, Max" = canonical_key "verstappen max" ∧
    "Verstappen, Max" ≠ "verstappen max" ∧
    ((upsert_entity_with_alias "Verstappen, Max" 1 none DBState.empty).1 =
      (upsert_entity_with_alias "verstappen max" 2 none
        (upsert_entity_with_alias "Verstappen, Max" 1 none DBState.empty).2).1 ∧
     entity_aliases
       (upsert_entity_with_alias "verstappen max" 2 none
         (upsert_entity_with_alias "Verstappen, Max" 1 none DBState.empty).2).2
       (upsert_entity_with_alias "Verstappen, Max" 1 none DBState.empty).1 =
         [("Verstappen, Max", 1, 2)]) :=
  ⟨by decide, by decide,
   upsert_entity_same_key_amended "Verstappen, Max" "verstappen max" 1 2 none none
     (by decide) (by decide)⟩

/-! ## C5: per-market latest outcomes -/

theorem foldl_max_init_le (l : List Nat) (a : Nat) : a ≤ l.foldl Nat.max a := by
  induction l generalizing a with
  | nil => exact Nat.le_refl a
  | cons y ys ih =>
    simp only [List.foldl_cons]
    exact le_trans (Nat.le_max_left a y) (ih (Nat.max a y))

theorem foldl_max_le_mem {l : List Nat} {x : Nat} (hx : x ∈ l) (a : Nat) :
    x ≤ l.foldl Nat.max a := by
  induction l generalizing a with
  | nil => cases hx
  | cons y ys ih =>
    simp only [List.foldl_cons]
    rcases List.mem_cons.mp hx with rfl | hx
    · exact le_trans (Nat.le_max_right a x) (foldl_max_init_le ys (Nat.max a x))
    · exact ih hx (Nat.max a y)

theorem foldl_max_mem (l : List Nat) (a : Nat) :
    l.foldl Nat.max a = a ∨ l.foldl Nat.max a ∈ l := by
  induction l generalizing a with
  | nil => exact Or.inl rfl
  | cons y ys ih =>
    simp only [List.foldl_cons]
    rcases ih (Nat.max a y) with h | h
    · rcases Nat.le_total a y with hle | hle
      · refine Or.inr ?_
        have hmax : a.max y = y := Nat.max_eq_right hle
        rw [h, hmax]
        exact List.mem_cons_self _ _
      · refine Or.inl ?_
        have hmax : a.max y = a := Nat.max_eq_left hle
        rw [h, hmax]
    · exact Or.inr (List.mem_cons_of_mem _ h)

/-- The SQL `MAX(snapshot_id)` is attained and bounds every snapshot of the
market's outcome rows. -/
theorem maxSnapForMarket_spec (db : DBState) (m : Nat)
    (hne : db.outcomes.filter (fun o => o.market_id == m) ≠ []) :
    ∃ M, maxSnapForMarket db m = some M ∧
      (∀ o ∈ db.outcomes, o.market_id = m → o.snapshot_id ≤ M) ∧
      (∃ o ∈ db.outcomes, o.market_id = m ∧ o.snapshot_id = M) := by
  have hnonempty : snapsOfMarket db m ≠ [] := by
    unfold snapsOfMarket
    simpa using hne
  have hM : maxSnapForMarket db m = some ((snapsOfMarket db m).foldl Nat.max 0) := by
    unfold maxSnapForMarket
    rw [if_neg (by simp [List.isEmpty_iff, hnonempty])]
  refine ⟨(snapsOfMarket db m).foldl Nat.max 0, hM, ?_, ?_⟩
  · intro o ho hom
    have hmem : o.snapshot_id ∈ snapsOfMarket db m := by
      unfold snapsOfMarket
      exact List.mem_map.mpr ⟨o, List.mem_filter.mpr ⟨ho, by simp [hom]⟩, rfl⟩
    exact foldl_max_le_mem hmem 0
  · have hMem : (snapsOfMarket db m).foldl Nat.max 0 ∈ snapsOfMarket db m := by
      rcases foldl_max_mem (snapsOfMarket db m) 0 with h | h
      · rcases hsn : snapsOfMarket db m with _ | ⟨x, xs⟩
        · exact absurd hsn hnonempty
        · rw [hsn] at h
          have hx : x ≤ List.foldl Nat.max 0 (x :: xs) :=
            foldl_max_le_mem (List.mem_cons_self _ _) 0
          rw [h] at hx
          rw [h]
          rw [← Nat.le_zero.mp hx]
          exact List.mem_cons_self _ _
      · exact h
    obtain ⟨o, hofil, hosnap⟩ := List.mem_map.mp hMem
    obtain ⟨ho, hom⟩ := List.mem_filter.mp hofil
    exact ⟨o, ho, beq_iff_eq.mp hom, hosnap⟩

/-- C5: for a market with at least one outcome row, `list_outcomes_latest`
returns exactly the rows of that market whose snapshot is the per-market
maximum (not a global latest), joined to their linked entity, in insertion
(rowid) order. -/
theorem list_outcomes_latest_spec (db : DBState) (m : Nat)
    (hne : db.outcomes.filter (fun o => o.market_id == m) ≠ [])
    (hsort : (db.outcomes.map OutcomeR.id).Pairwise (· < ·)) :
    ∃ M, maxSnapForMarket db m = some M ∧
      (∀ o ∈ db.outcomes, o.market_id = m → o.snapshot_id ≤ M) ∧
      (∃ o ∈ db.outcomes, o.market_id = m ∧ o.snapshot_id = M) ∧
      list_outcomes_latest db m =
        (db.outcomes.filter (fun o => o.market_id == m && o.snapshot_id == M)).map
          (joinEntity db) ∧
      ((list_outcomes_latest db m).map OutcomeJ.id).Pairwise (· < ·) := by
  obtain ⟨M, hM, hub, hatt⟩ := maxSnapForMarket_spec db m hne
  have hexp : list_outcomes_latest db m =
      (db.outcomes.filter (fun o => o.market_id == m && o.snapshot_id == M)).map
        (joinEntity db) := by
    unfold list_outcomes_latest
    rw [hM]
  refine ⟨M, hM, hub, hatt, hexp, ?_⟩
  rw [hexp, List.map_map]
  have hcomp : (OutcomeJ.id ∘ joinEntity db) = OutcomeR.id := funext fun o => rfl
  rw [hcomp]
  exact hsort.sublist (List.Sublist.map _ (List.filter_sublist _))

/-- Witness for C5 on the two-market store: market 2's latest snapshot is 1,
not the global maximum 2. -/
theorem list_outcomes_latest_spec_witness :
    (latest_db.outcomes.filter (fun o => o.market_id == 2) ≠ []) ∧
    ((latest_db.outcomes.map OutcomeR.id).Pairwise (· < ·)) ∧
    (∃ M, maxSnapForMarket latest_db 2 = some M ∧
      (∀ o ∈ latest_db.outcomes, o.market_id = 2 → o.snapshot_id ≤ M) ∧
      (∃ o ∈ latest_db.outcomes, o.market_id = 2 ∧ o.snapshot_id = M) ∧
      list_outcomes_latest latest_db 2 =
        (latest_db.outcomes.filter (fun o => o.market_id == 2 && o.snapshot_id == M)).map
          (joinEntity latest_db) ∧
      ((list_outcomes_latest latest_db 2).map OutcomeJ.id).Pairwise (· < ·)) :=
  ⟨by decide, by decide, list_outcomes_latest_spec latest_db 2 (by decide) (by decide)⟩

/-! ## Store invariants along reachable states (towards C7 and C10) -/

theorem storeInv_of_eq {db db' : DBState}
    (he : db'.entities = db.entities) (ha : db'.entity_aliases = db.entity_aliases)
    (hn : db'.next_entity_id = db.next_entity_id) (ho : db'.outcomes = db.outcomes)
    (h : StoreInv db) : StoreInv db' := by
  unfold StoreInv at h ⊢
  rw [he, ha, hn, ho]
  exact h

theorem sqlInsertOrIgnoreSection_frame (t : String) (db : DBState) :
    (sqlInsertOrIgnoreSection t db).entities = db.entities ∧
    (sqlInsertOrIgnoreSection t db).entity_aliases = db.entity_aliases ∧
    (sqlInsertOrIgnoreSection t db).next_entity_id = db.next_entity_id ∧
    (sqlInsertOrIgnoreSection t db).outcomes = db.outcomes := by
  unfold sqlInsertOrIgnoreSection
  split <;> exact ⟨rfl, rfl, rfl, rfl⟩

theorem upsert_section_frame (t : String) (db : DBState) :
    (upsert_section t db).2.entities = db.entities ∧
    (upsert_section t db).2.entity_aliases = db.entity_aliases ∧
    (upsert_section t db).2.next_entity_id = db.next_entity_id ∧
    (upsert_section t db).2.outcomes = db.outcomes := by
  obtain ⟨h1, h2, h3, h4⟩ := sqlInsertOrIgnoreSection_frame t db
  unfold upsert_section
  cases hf : (sqlInsertOrIgnoreSection t db).sections.find? (fun r => r.title == t) with
  | none =>
    simp only [hf]
    exact ⟨h1, h2, h3, h4⟩
  | some row =>
    simp only [hf]
    exact ⟨h1, h2, h3, h4⟩

theorem sqlInsertOrIgnoreEvent_frame (n : String) (sid : Option Nat) (db : DBState) :
    (sqlInsertOrIgnoreEvent n sid db).entities = db.entities ∧
    (sqlInsertOrIgnoreEvent n sid db).entity_aliases = db.entity_aliases ∧
    (sqlInsertOrIgnoreEvent n sid db).next_entity_id = db.next_entity_id ∧
    (sqlInsertOrIgnoreEvent n sid db).outcomes = db.outcomes := by
  unfold sqlInsertOrIgnoreEvent
  split <;> exact ⟨rfl, rfl, rfl, rfl⟩

theorem upsert_event_frame (n : String) (sid : Option Nat) (db : DBState) :
    (upsert_event n sid db).2.entities = db.entities ∧
    (upsert_event n sid db).2.entity_aliases = db.entity_aliases ∧
    (upsert_event n sid db).2.next_entity_id = db.next_entity_id ∧
    (upsert_event n sid db).2.outcomes = db.outcomes := by
  obtain ⟨h1, h2, h3, h4⟩ := sqlInsertOrIgnoreEvent_frame n sid db
  unfold upsert_event
  cases hf : (sqlInsertOrIgnoreEvent n sid db).events.find? (fun r => r.name == n) with
  | none =>
    simp only [hf]
    exact ⟨h1, h2, h3, h4⟩
  | some row =>
    simp only [hf]
    split <;> exact ⟨h1, h2, h3, h4⟩

theorem sqlInsertOrIgnoreMarket_frame (n : String) (ev : Option Nat) (s : Nat) (db : DBState) :
    (sqlInsertOrIgnoreMarket n ev s db).entities = db.entities ∧
    (sqlInsertOrIgnoreMarket n ev s db).entity_aliases = db.entity_aliases ∧
    (sqlInsertOrIgnoreMarket n ev s db).next_entity_id = db.next_entity_id ∧
    (sqlInsertOrIgnoreMarket n ev s db).outcomes = db.outcomes := by
  unfold sqlInsertOrIgnoreMarket
  split <;> exact ⟨rfl, rfl, rfl, rfl⟩

theorem upsert_market_frame (n : String) (ev : Option Nat) (s : Nat) (db : DBState) :
    (upsert_market n ev s db).2.entities = db.entities ∧
    (upsert_market n ev s db).2.entity_aliases = db.entity_aliases ∧
    (upsert_market n ev s db).2.next_entity_id = db.next_entity_id ∧
    (upsert_market n ev s db).2.outcomes = db.outcomes := by
  obtain ⟨h1, h2, h3, h4⟩ := sqlInsertOrIgnoreMarket_frame n ev s db
  unfold upsert_market
  cases hf : (sqlInsertOrIgnoreMarket n ev s db).markets.find? (fun r => r.name == n) with
  | none =>
    simp only [hf]
    exact ⟨h1, h2, h3, h4⟩
  | some row =>
    simp only [hf]
    split <;> exact ⟨h1, h2, h3, h4⟩

theorem link_outcome_entity_frame (oid eid : Nat) (db : DBState) :
    (link_outcome_entity oid eid db).entities = db.entities ∧
    (link_outcome_entity oid eid db).entity_aliases = db.entity_aliases ∧
    (link_outcome_entity oid eid db).next_entity_id = db.next_entity_id ∧
    (link_outcome_entity oid eid db).outcomes = db.outcomes := by
  unfold link_outcome_entity
  split <;> exact ⟨rfl, rfl, rfl, rfl⟩

/-- Strictly increasing entity ids are unique ids. -/
theorem entities_id_inj {l : List EntityR} (h : (l.map EntityR.id).Pairwise (· < ·))
    {e e' : EntityR} (he : e ∈ l) (he' : e' ∈ l) (hid : e.id = e'.id) : e = e' := by
  have hnd : (l.map EntityR.id).Nodup := h.imp (fun hlt => Nat.ne_of_lt hlt)
  exact List.inj_on_of_nodup_map hnd he he' hid

theorem storeInv_insert_outcome (m : Nat) (sel : String) (odds : ℚ) (snap : Nat)
    (db : DBState) (h : StoreInv db) : StoreInv (insert_outcome m sel odds snap db).2 := by
  obtain ⟨h1, h2, h3, h4, h5⟩ := h
  refine ⟨?_, h2, h3, h4, h5⟩
  intro o ho
  rcases List.mem_append.mp ho with ho | ho
  · exact h1 o ho
  · simp only [List.mem_singleton] at ho
    rw [ho]

/-- `_upsert_alias` preserves the invariants provided the target entity
exists and its canonical key equals the alias key being attached — which is
how `upsert_entity_with_alias` always calls it. -/
theorem storeInv_upsert_alias (eid : Nat) (n : String) (snap : Nat) (db : DBState)
    (e : EntityR) (hmem : e ∈ db.entities) (hid : e.id = eid)
    (hkey : e.canonical_key = canonical_key n)
    (h : StoreInv db) : StoreInv (upsert_alias eid n snap db) := by
  obtain ⟨h1, h2, h3, h4, h5⟩ := h
  unfold upsert_alias
  cases hf : db.entity_aliases.find?
      (fun a => a.entity_id == eid && a.alias_key == canonical_key n) with
  | some row =>
    simp only [hf]
    have hent : ∀ a0 : AliasR,
        ((if a0.id == row.id then { a0 with last_seen_snapshot_id := snap } else a0) :
          AliasR).entity_id = a0.entity_id := by
      intro a0
      cases hb : a0.id == row.id <;> simp [hb]
    have halk : ∀ a0 : AliasR,
        ((if a0.id == row.id then { a0 with last_seen_snapshot_id := snap } else a0) :
          AliasR).alias_key = a0.alias_key := by
      intro a0
      cases hb : a0.id == row.id <;> simp [hb]
    refine ⟨h1, h2, h3, ?_, ?_⟩
    · intro a ha
      obtain ⟨a0, ha0, ha0eq⟩ := List.mem_map.mp ha
      obtain ⟨e', he', hid', hkey'⟩ := h4 a0 ha0
      rw [← ha0eq]
      exact ⟨e', he', by rw [hid', hent a0], by rw [hkey', halk a0]⟩
    · rw [List.map_map]
      have : (AliasR.entity_id ∘ fun a0 : AliasR =>
          if a0.id == row.id then { a0 with last_seen_snapshot_id := snap } else a0) =
          AliasR.entity_id := funext fun a0 => hent a0
      rw [this]
      exact h5
  | none =>
    simp only [hf]
    refine ⟨h1, h2, h3, ?_, ?_⟩
    · intro a ha
      rcases List.mem_append.mp ha with ha | ha
      · exact h4 a ha
      · simp only [List.mem_singleton] at ha
        rw [ha]
        exact ⟨e, hmem, hid, hkey⟩
    · rw [List.map_append]
      refine List.Nodup.append h5 (by simp) ?_
      intro x hx hx2
      simp only [List.map_cons, List.map_nil, List.mem_singleton] at hx2
      obtain ⟨a0, ha0, ha0id⟩ := List.mem_map.mp hx
      have ha0eid : a0.entity_id = eid := by rw [ha0id, hx2]
      obtain ⟨e', he', hid', hkey'⟩ := h4 a0 ha0
      have hee : e' = e := entities_id_inj h3 he' hmem (by rw [hid', ha0eid, hid])
      have hp : (a0.entity_id == eid && a0.alias_key == canonical_key n) = true := by
        have hk2 : a0.alias_key = canonical_key n := by
          rw [← hkey', hee, hkey]
        simp [ha0eid, hk2]
      exact absurd hp (by simpa using List.find?_eq_none.mp hf a0 ha0)

theorem storeInv_upsert_entity (n : String) (snap : Nat) (typ : Option String)
    (db : DBState) (h : StoreInv db) : StoreInv (upsert_entity_with_alias n snap typ db).2 := by
  unfold upsert_entity_with_alias
  cases hf : db.entities.find? (fun e => e.canonical_key == canonical_key n) with
  | some e =>
    simp only [hf]
    have hmem : e ∈ db.entities := List.mem_of_find?_eq_some hf
    have hkey : e.canonical_key = canonical_key n := by
      have hp := List.find?_some hf
      simpa using hp
    exact storeInv_upsert_alias e.id n snap db e hmem rfl hkey h
  | none =>
    simp only [hf]
    obtain ⟨h1, h2, h3, h4, h5⟩ := h
    have hinv1 : StoreInv { db with
        entities := db.entities ++ [⟨db.next_entity_id, typ, n, canonical_key n⟩],
        next_entity_id := db.next_entity_id + 1 } := by
      refine ⟨h1, ?_, ?_, ?_, h5⟩
      · intro e he
        rcases List.mem_append.mp he with he | he
        · exact Nat.lt_succ_of_lt (h2 e he)
        · simp only [List.mem_singleton] at he
          rw [he]
          exact Nat.lt_succ_self _
      · rw [List.map_append]
        rw [List.pairwise_append]
        refine ⟨h3, by simp, ?_⟩
        intro x hx y hy
        obtain ⟨e0, he0, he0id⟩ := List.mem_map.mp hx
        simp only [List.map_cons, List.map_nil, List.mem_singleton] at hy
        rw [hy, ← he0id]
        exact h2 e0 he0
      · intro a ha
        obtain ⟨e', he', hid', hkey'⟩ := h4 a ha
        exact ⟨e', List.mem_append_left _ he', hid', hkey'⟩
    exact storeInv_upsert_alias db.next_entity_id n snap _
      ⟨db.next_entity_id, typ, n, canonical_key n⟩
      (List.mem_append_right _ (List.mem_singleton.mpr rfl)) rfl rfl hinv1

/-- Every state reachable through the public store operations satisfies the
structural invariants. -/
theorem reachable_storeInv {db : DBState} (h : Reachable db) : StoreInv db := by
  induction h with
  | init => refine ⟨?_, ?_, ?_, ?_, ?_⟩ <;> simp [DBState.empty]
  | snap url html _ ih => exact storeInv_of_eq rfl rfl rfl rfl ih
  | sec t _ ih =>
    obtain ⟨h1, h2, h3, h4⟩ := upsert_section_frame t _
    exact storeInv_of_eq h1 h2 h3 h4 ih
  | ev n sid _ ih =>
    obtain ⟨h1, h2, h3, h4⟩ := upsert_event_frame n sid _
    exact storeInv_of_eq h1 h2 h3 h4 ih
  | mkt n ev s _ ih =>
    obtain ⟨h1, h2, h3, h4⟩ := upsert_market_frame n ev s _
    exact storeInv_of_eq h1 h2 h3 h4 ih
  | outc m sel odds s _ ih => exact storeInv_insert_outcome m sel odds s _ ih
  | ent n s typ _ ih => exact storeInv_upsert_entity n s typ _ ih
  | lnk oid eid _ ih =>
    obtain ⟨h1, h2, h3, h4⟩ := link_outcome_entity_frame oid eid _
    exact storeInv_of_eq h1 h2 h3 h4 ih

/-! ## C7: implied probability is always derived -/

/-- C7: in every reachable store state, every outcome row's stored implied
probability equals `implied_probability` of its own odds: `0` when the odds
value is zero, `1/odds` when the odds are positive, with no clamping or
rounding. -/
theorem outcomes_implied_prob_derived (db : DBState) (h : Reachable db) :
    ∀ o ∈ db.outcomes, o.implied_prob = implied_probability o.odds_decimal ∧
      (o.odds_decimal = 0 → o.implied_prob = 0) ∧
      (0 < o.odds_decimal → o.implied_prob = 1 / o.odds_decimal) := by
  intro o ho
  have h1 := (reachable_storeInv h).1 o ho
  refine ⟨h1, ?_, ?_⟩
  · intro hz
    rw [h1, implied_probability, if_pos hz]
  · intro hpos
    rw [h1, implied_probability, if_neg (ne_of_gt hpos)]

/-- Witness for C7 on the concrete reachable three-outcome store. -/
theorem outcomes_implied_prob_derived_witness :
    Reachable latest_db ∧
    ∀ o ∈ latest_db.outcomes, o.implied_prob = implied_probability o.odds_decimal ∧
      (o.odds_decimal = 0 → o.implied_prob = 0) ∧
      (0 < o.odds_decimal → o.implied_prob = 1 / o.odds_decimal) :=
  have h : Reachable latest_db :=
    Reachable.outc 2 "C" 0 1 (Reachable.outc 1 "B" 0 2
      (Reachable.outc 1 "A" 0 1 Reachable.init))
  ⟨h, outcomes_implied_prob_derived latest_db h⟩

/-! ## C10: one alias row per entity, keyed like the entity -/

/-- C10: in every reachable store state, each entity has at most one alias
row, and every alias row of an entity carries the entity's own canonical key
— a second spelling variant is never accumulated. -/
theorem entity_alias_keyed_unique (db : DBState) (h : Reachable db) :
    ∀ e ∈ db.entities,
      (db.entity_aliases.filter (fun a => a.entity_id == e.id)).length ≤ 1 ∧
      ∀ a ∈ db.entity_aliases, a.entity_id = e.id → a.alias_key = e.canonical_key := by
  obtain ⟨_, _, h3, h4, h5⟩ := reachable_storeInv h
  intro e he
  constructor
  · rcases hfil : db.entity_aliases.filter (fun a => a.entity_id == e.id) with _ | ⟨a1, rest⟩
    · simp [hfil]
    · rcases rest with _ | ⟨a2, rest2⟩
      · simp [hfil]
      · exfalso
        have hsub : (a1 :: a2 :: rest2).Sublist db.entity_aliases := by
          rw [← hfil]
          exact List.filter_sublist _
        have hnd : ((a1 :: a2 :: rest2).map AliasR.entity_id).Nodup :=
          h5.sublist (hsub.map AliasR.entity_id)
        have ha1 : a1.entity_id = e.id := by
          have : a1 ∈ db.entity_aliases.filter (fun a => a.entity_id == e.id) := by
            rw [hfil]
            exact List.mem_cons_self _ _
          exact beq_iff_eq.mp (List.mem_filter.mp this).2
        have ha2 : a2.entity_id = e.id := by
          have : a2 ∈ db.entity_aliases.filter (fun a => a.entity_id == e.id) := by
            rw [hfil]
            exact List.mem_cons_of_mem _ (List.mem_cons_self _ _)
          exact beq_iff_eq.mp (List.mem_filter.mp this).2
        rw [List.map_cons, List.map_cons, List.nodup_cons] at hnd
        exact hnd.1 (by rw [ha1, ← ha2]; exact List.mem_cons_self _ _)
  · intro a ha haeid
    obtain ⟨e', he', hid', hkey'⟩ := h4 a ha
    have hee : e' = e := entities_id_inj h3 he' he (by rw [hid', haeid])
    rw [← hkey', hee]

/-- Witness for C10 on the concrete one-entity store. -/
theorem entity_alias_keyed_unique_witness :
    Reachable entity_db ∧
    ∀ e ∈ entity_db.entities,
      (entity_db.entity_aliases.filter (fun a => a.entity_id == e.id)).length ≤ 1 ∧
      ∀ a ∈ entity_db.entity_aliases, a.entity_id = e.id → a.alias_key = e.canonical_key :=
  have h : Reachable entity_db :=
    Reachable.ent "Verstappen, Max" 1 (some "driver") Reachable.init
  ⟨h, entity_alias_keyed_unique entity_db h⟩

end Leo
